import Mathlib

/-!
# TCP file push: receiver (`server/src/main.c`) and sender (`client/src/main.c`)

A shallow embedding of the wire protocol, the two socket read loops, the
directory provisioner and the receiver orchestration.

Conventions of the embedding.

* A byte is a `Nat` below 256; a C string is the list of its bytes before the
  terminating zero byte.
* A stream socket is the list of segments still to be delivered; an empty list
  is an orderly shutdown by the peer, so `recv` then reports 0.
* The outcome of a C function is `Outcome`: a normal return, a process exit
  through `fatal_errno`, a memory-unsafe operation, or exhaustion of the loop
  budget of the embedding.
* `ssize_t` and `int32_t` values are `Int`; `size_t`, `uint16_t` and `uint32_t`
  values are `Nat` with the reduction modulo the width written out.
-/

namespace TcpPush

/-! ## Outcomes and `error_check` -/

/-- Result of running a C function of the program. -/
inductive Outcome (α : Type) where
  | ok (val : α)
  | fatal (errno : Nat)
  | undefined
  | diverged
deriving DecidableEq, Repr

/-- Sequencing of two steps; every outcome other than a normal return stops the run. -/
def Outcome.bind {α β : Type} (x : Outcome α) (f : α → Outcome β) : Outcome β :=
  match x with
  | Outcome.ok a => f a
  | Outcome.fatal e => Outcome.fatal e
  | Outcome.undefined => Outcome.undefined
  | Outcome.diverged => Outcome.diverged

/-- Errno value of "no such file or directory". -/
def ENOENT : Nat := 2

/-- Errno value of "permission denied". -/
def EACCES : Nat := 13

/-- Errno value of "file exists". -/
def EEXIST : Nat := 17

/-- Errno value of "not a directory". -/
def ENOTDIR : Nat := 20

/-- Errno value of "invalid argument". -/
def EINVAL : Nat := 22

/-- The byte of the path separator. -/
def SLASH : Nat := 47

/-- Size of the heap buffer that holds the destination path (`DIRECTORY_SIZE`). -/
def DIRECTORY_SIZE : Nat := 100

/-- Modelled from the spec: `fatal_errno` of the absent `error.h` reports the error and
ends the process (a failure that is "fatal and reported"); it does not return. -/
def fatal_errno {α : Type} (errno : Nat) : Outcome α := Outcome.fatal errno

/-- Function `error_check(status)` (server, lines 222-227; client, lines 188-193): the
status -1 goes to `fatal_errno` with the current `errno`, any other status is handed
back. -/
def error_check (status : Int) (errno : Nat) : Outcome Int :=
  if status = -1 then fatal_errno errno else Outcome.ok status

/-! ## Byte order -/

/-- Swap of the two bytes of a 16-bit value. -/
def bswap16 (x : Nat) : Nat := (x % 256) * 256 + (x / 256) % 256

/-- Reversal of the four bytes of a 32-bit value. -/
def bswap32 (x : Nat) : Nat :=
  (x % 256) * 16777216 + ((x / 256) % 256) * 65536 + ((x / 65536) % 256) * 256
    + (x / 16777216) % 256

/-- Conversion `htons` on a host that is little-endian (`le = true`) or big-endian;
the argument is first converted to `uint16_t`. -/
def htons (le : Bool) (x : Nat) : Nat :=
  if le then bswap16 (x % 65536) else x % 65536

/-- Conversion `ntohs`, the same byte operation as `htons`. -/
def ntohs (le : Bool) (x : Nat) : Nat := htons le x

/-- Conversion `htonl`; the argument is first converted to `uint32_t`. -/
def htonl (le : Bool) (x : Nat) : Nat :=
  if le then bswap32 (x % 4294967296) else x % 4294967296

/-- Conversion `ntohl`, the same byte operation as `htonl`. -/
def ntohl (le : Bool) (x : Nat) : Nat := htonl le x

/-- Bytes of a `uint16_t` object in memory, lowest address first. -/
def mem_of_u16 (le : Bool) (x : Nat) : List Nat :=
  if le then [x % 256, (x / 256) % 256] else [(x / 256) % 256, x % 256]

/-- Bytes of a `uint32_t` object in memory, lowest address first. -/
def mem_of_u32 (le : Bool) (x : Nat) : List Nat :=
  if le then [x % 256, (x / 256) % 256, (x / 65536) % 256, (x / 16777216) % 256]
  else [(x / 16777216) % 256, (x / 65536) % 256, (x / 256) % 256, x % 256]

/-- Value of the `uint16_t` object stored in two bytes of memory. -/
def u16_of_mem (le : Bool) (b : List Nat) : Nat :=
  if le then b.getD 0 0 + 256 * b.getD 1 0 else 256 * b.getD 0 0 + b.getD 1 0

/-- Value of the 32-bit object stored in four bytes of memory, read as unsigned. -/
def u32_of_mem (le : Bool) (b : List Nat) : Nat :=
  if le then b.getD 0 0 + 256 * b.getD 1 0 + 65536 * b.getD 2 0 + 16777216 * b.getD 3 0
  else 16777216 * b.getD 0 0 + 65536 * b.getD 1 0 + 256 * b.getD 2 0 + b.getD 3 0

/-- Conversion of a 32-bit pattern to `int32_t` (two's complement). -/
def int32_of_u32 (x : Nat) : Int :=
  if x % 4294967296 < 2147483648 then ((x % 4294967296 : Nat) : Int)
  else ((x % 4294967296 : Nat) : Int) - 4294967296

/-- Big-endian encoding on two bytes, the wire format of the filename length. -/
def be16 (x : Nat) : List Nat := [(x / 256) % 256, x % 256]

/-- Big-endian encoding on four bytes, the wire format of the file size. -/
def be32 (x : Nat) : List Nat :=
  [(x / 16777216) % 256, (x / 65536) % 256, (x / 256) % 256, x % 256]

/-! ## Stream sockets -/

/-- One pending event of a stream socket: bytes that arrive together, or a failure of
the next `recv`. -/
inductive Seg where
  | data (bytes : List Nat)
  | error (errno : Nat)
deriving DecidableEq, Repr

/-- The receive side of a connected socket. -/
abbrev Socket := List Seg

/-- What one call of `recv` hands back. -/
structure RecvResult where
  status : Int
  errno : Nat
  bytes : List Nat
  sock : Socket
deriving DecidableEq, Repr

/-- System call `recv(fd, buf, len, 0)`: at most `len` bytes of the first pending
segment; 0 when the peer has closed; -1 on a pending failure. -/
def recv (sock : Socket) (len : Nat) : RecvResult :=
  match sock with
  | [] => ⟨0, 0, [], []⟩
  | Seg.error e :: rest => ⟨-1, e, [], rest⟩
  | Seg.data c :: rest =>
    if c.length ≤ len then ⟨(c.length : Int), 0, c, rest⟩
    else ⟨(len : Int), 0, c.take len, Seg.data (c.drop len) :: rest⟩

/-- Bytes of a buffer after `recv` stored `bytes` at its start. -/
def store (buffer bytes : List Nat) : List Nat :=
  bytes ++ buffer.drop bytes.length

/-! ## `read_complete_buffer` (server, lines 289-302) -/

/-- State of `read_complete_buffer` when it returns. -/
structure ReadResult where
  ret : Nat
  buffer : List Nat
  sock : Socket
deriving DecidableEq, Repr

/-- The `while` loop of `read_complete_buffer`; `fuel` bounds the iterations. -/
def read_complete_buffer_loop :
    Nat → Nat → Nat → List Nat → Nat → Socket → Outcome ReadResult
  | 0, _, _, _, _, _ => Outcome.diverged
  | fuel + 1, numberOfBytesRead, sum, buffer, size, sock =>
    if numberOfBytesRead < size then
      let r := recv sock size
      match error_check r.status r.errno with
      | Outcome.ok status =>
        let numberOfBytesRead1 := status.toNat
        let buffer1 := store buffer r.bytes
        let sum1 := sum + numberOfBytesRead1
        if numberOfBytesRead1 = 0 ∨ sum1 = size then
          Outcome.ok ⟨numberOfBytesRead1, buffer1, r.sock⟩
        else
          read_complete_buffer_loop fuel numberOfBytesRead1 sum1 buffer1 size r.sock
      | Outcome.fatal e => Outcome.fatal e
      | Outcome.undefined => Outcome.undefined
      | Outcome.diverged => Outcome.diverged
    else Outcome.ok ⟨numberOfBytesRead, buffer, sock⟩

/-- Function `read_complete_buffer(buffer, size, socketFD)`. One more iteration than
there are pending segments is always enough (`read_complete_buffer_returns`). -/
def read_complete_buffer (buffer : List Nat) (size : Nat) (sock : Socket) :
    Outcome ReadResult :=
  read_complete_buffer_loop (sock.length + 1) 0 0 buffer size sock

/-! ## `write_complete_buffer` (server, lines 270-287) -/

/-- State of `write_complete_buffer` when it returns: the value returned, the socket,
the payload of every `write` on the destination descriptor in order, and the number
of `recv` calls made. -/
structure PumpResult where
  ret : Int
  sock : Socket
  writes : List (List Nat)
  recvs : Nat
deriving DecidableEq, Repr

/-- System call `write(fd, buf, n)` on the destination file: with a valid descriptor
the bytes are appended to the file, otherwise the call fails and stores nothing. The
program never looks at the value returned. -/
def write_fd (fd : Int) (writes : List (List Nat)) (bytes : List Nat) : List (List Nat) :=
  if fd = -1 then writes else writes ++ [bytes]

/-- The `while` loop of `write_complete_buffer`; `fuel` bounds the iterations. -/
def write_complete_buffer_loop :
    Nat → Int → Socket → List Nat → Int → Int → List (List Nat) → Nat → Outcome PumpResult
  | 0, _, _, _, _, _, _, _ => Outcome.diverged
  | fuel + 1, ssize, sock, buffer, size, fd, writes, recvs =>
    if ssize < size then
      let r := recv sock size.toNat
      match error_check r.status r.errno with
      | Outcome.ok ssize1 =>
        let buffer1 := store buffer r.bytes
        let writes1 := write_fd fd writes (buffer1.take ssize1.toNat)
        let buffer2 := List.replicate size.toNat 0
        if ssize1 = 0 then Outcome.ok ⟨ssize1, r.sock, writes1, recvs + 1⟩
        else write_complete_buffer_loop fuel ssize1 r.sock buffer2 size fd writes1 (recvs + 1)
      | Outcome.fatal e => Outcome.fatal e
      | Outcome.undefined => Outcome.undefined
      | Outcome.diverged => Outcome.diverged
    else Outcome.ok ⟨ssize, sock, writes, recvs⟩

/-- Function `write_complete_buffer(socketFD, buffer, size, fd)`. One more iteration
than there are pending segments is always enough (`write_complete_buffer_returns`). -/
def write_complete_buffer (sock : Socket) (buffer : List Nat) (size : Int) (fd : Int) :
    Outcome PumpResult :=
  write_complete_buffer_loop (sock.length + 1) 0 sock buffer size fd [] 0

/-! ## C strings -/

/-- The C string held in a buffer: the bytes before the first zero byte. -/
def cstr (buffer : List Nat) : List Nat := buffer.takeWhile (fun b => b ≠ 0)

/-- Function `strlen` on a C string. -/
def strlen (s : List Nat) : Nat := s.length

/-- Function `strcpy` into a buffer of `cap` bytes; writing past its end is undefined. -/
def strcpy (cap : Nat) (src : List Nat) : Outcome (List Nat) :=
  if src.length + 1 ≤ cap then Outcome.ok src else Outcome.undefined

/-- Function `strcat` onto the string `dst` held in a buffer of `cap` bytes; writing
past its end is undefined. -/
def strcat (cap : Nat) (dst src : List Nat) : Outcome (List Nat) :=
  if dst.length + src.length + 1 ≤ cap then Outcome.ok (dst ++ src) else Outcome.undefined

/-- Function `strrchr`: index of the last occurrence of `c`, if any. -/
def strrchr : List Nat → Nat → Option Nat
  | [], _ => none
  | x :: xs, c =>
    match strrchr xs c with
    | some i => some (i + 1)
    | none => if x = c then some 0 else none

/-! ## File system -/

/-- A place in the directory tree: whether the path started at the root, and the
names walked from there. -/
structure Node where
  abs : Bool
  names : List (List Nat)
deriving DecidableEq, Repr

/-- State of the file system as far as the receiver can observe it: the directories
and regular files that exist, the places where `mkdir` is refused, and the
directories that another process creates between a failed existence check of this
process and its next system call. The root and the working directory always exist. -/
structure FS where
  dirs : List Node
  files : List (Node × List Nat)
  denied : List Node
  racing : List Node
deriving DecidableEq, Repr

/-- Closes the name being collected, if there is one. -/
def flush (acc : List (List Nat)) (cur : List Nat) : List (List Nat) :=
  if cur = [] then acc else acc ++ [cur]

/-- One byte of a path: a separator closes the current name, any other byte extends it. -/
def compStep (st : List (List Nat) × List Nat) (c : Nat) : List (List Nat) × List Nat :=
  if c = SLASH then (flush st.1 st.2, []) else (st.1, st.2 ++ [c])

/-- The non-empty names between the separators of a path. -/
def components (p : List Nat) : List (List Nat) :=
  flush (p.foldl compStep ([], [])).1 (p.foldl compStep ([], [])).2

/-- Path resolution: empty names are skipped, a leading separator starts at the root.
The names `.` and `..` and symbolic links are not interpreted. -/
def resolve (p : List Nat) : Node :=
  ⟨decide (p.head? = some SLASH), components p⟩

/-- The directory that holds a node. -/
def Node.parent (n : Node) : Node := ⟨n.abs, n.names.dropLast⟩

/-- Whether a node is an existing directory. -/
def isDir (fs : FS) (n : Node) : Bool :=
  decide (n.names = []) || decide (n ∈ fs.dirs)

/-- Whether a node is an existing regular file. -/
def isFile (fs : FS) (n : Node) : Bool :=
  decide (n ∈ fs.files.map Prod.fst)

/-- System call `stat(path, &st)`: 0 when the path names something that exists, else
-1. The empty path names nothing, and a regular file is not reached through a path
that ends in a separator. -/
def stat (fs : FS) (p : List Nat) : Int :=
  if p ≠ [] ∧ (isDir fs (resolve p) = true
      ∨ (isFile fs (resolve p) = true ∧ p.getLast? ≠ some SLASH)) then 0
  else -1

/-- What a system call on the file system hands back. -/
structure SysResult where
  status : Int
  errno : Nat
  fs : FS
deriving DecidableEq, Repr

/-- System call `mkdir(path, mode)`. Permissions are carried by `FS.denied`, so the
mode does not appear. -/
def mkdir (fs : FS) (p : List Nat) : SysResult :=
  if p = [] then ⟨-1, ENOENT, fs⟩
  else if isDir fs (resolve p) = true ∨ isFile fs (resolve p) = true then ⟨-1, EEXIST, fs⟩
  else if isDir fs (resolve p).parent = false then
    ⟨-1, if isFile fs (resolve p).parent = true then ENOTDIR else ENOENT, fs⟩
  else if (resolve p) ∈ fs.denied then ⟨-1, EACCES, fs⟩
  else ⟨0, 0, ⟨fs.dirs ++ [resolve p], fs.files, fs.denied, fs.racing⟩⟩

/-- What other processes do between two system calls of this one on `p`: a racing
directory appears. -/
def intervene (fs : FS) (p : List Nat) : FS :=
  if (resolve p) ∈ fs.racing then
    ⟨fs.dirs ++ [resolve p], fs.files, fs.denied, fs.racing.erase (resolve p)⟩
  else fs

/-- Descriptor number handed out by a successful `open`; only its difference from -1
matters. -/
def DEST_FD : Int := 4

/-- Errno value of "is a directory". -/
def EISDIR : Nat := 21

/-- System call `open(path, O_WRONLY | O_TRUNC | O_CREAT | O_CLOEXEC, 0666)`: the file
is created empty, or emptied, when its directory exists and the path does not name a
directory. -/
def open_trunc (fs : FS) (p : List Nat) : SysResult :=
  if p = [] then ⟨-1, ENOENT, fs⟩
  else if isDir fs (resolve p) = true ∨ p.getLast? = some SLASH then ⟨-1, EISDIR, fs⟩
  else if isDir fs (resolve p).parent = false then
    ⟨-1, if isFile fs (resolve p).parent = true then ENOTDIR else ENOENT, fs⟩
  else ⟨DEST_FD, 0, ⟨fs.dirs,
    (fs.files.filter (fun f => decide (f.1 ≠ resolve p))) ++ [(resolve p, [])],
    fs.denied, fs.racing⟩⟩

/-- Contents of the regular file at a node, if it exists. -/
def fileContent (fs : FS) (n : Node) : Option (List Nat) :=
  (fs.files.find? (fun f => decide (f.1 = n))).map Prod.snd

/-- The file system once the bytes written on the descriptor of node `n` are in its
file. -/
def commit (fs : FS) (n : Node) (bytes : List Nat) : FS :=
  ⟨fs.dirs, fs.files.map (fun f => if f.1 = n then (f.1, f.2 ++ bytes) else f),
    fs.denied, fs.racing⟩

/-! ## `create_download_directory` (server, lines 305-343) -/

/-- State of `create_download_directory` when it returns: the value returned, `errno`,
the file system, and the argument of every `mkdir` call that came back, in order. -/
structure ProvisionResult where
  result : Int
  errno : Nat
  fs : FS
  mkdirs : List (List Nat)
deriving DecidableEq, Repr

/-- Lines 327-339 of `create_download_directory`: the existence check of `path` and,
when it fails, the `mkdir` under `error_check`; `r` is the state after lines 317-325. -/
def create_download_directory_visit (r : ProvisionResult) (path : List Nat)
    (fail_on_exist : Int) : Outcome ProvisionResult :=
  if strlen path ≠ 0 then
    if stat r.fs path = -1 then
      let m := mkdir (intervene r.fs path) path
      (error_check m.status m.errno).bind fun result =>
        if result ≠ 0 then
          if (EEXIST : Int) = result ∧ 0 = fail_on_exist then
            Outcome.ok ⟨0, m.errno, m.fs, r.mkdirs ++ [path]⟩
          else Outcome.ok ⟨result, m.errno, m.fs, r.mkdirs ++ [path]⟩
        else Outcome.ok ⟨result, m.errno, m.fs, r.mkdirs ++ [path]⟩
    else Outcome.ok r
  else Outcome.ok r

/-- Recursion of `create_download_directory`: `fuel` bounds its depth. The path is cut
at its last separator for the inner call and restored afterwards. -/
def create_download_directory_rec :
    Nat → FS → Option (List Nat) → Nat → Int → List (List Nat) → Outcome ProvisionResult
  | 0, _, _, _, _, _ => Outcome.diverged
  | _ + 1, fs, none, _, _, log => Outcome.ok ⟨-1, EINVAL, fs, log⟩
  | fuel + 1, fs, some path, mode, fail_on_exist, log =>
    let inner : Outcome ProvisionResult :=
      match strrchr path SLASH with
      | some dir =>
        create_download_directory_rec fuel fs (some (path.take dir)) mode fail_on_exist log
      | none => Outcome.ok ⟨0, 0, fs, log⟩
    inner.bind fun r =>
      if r.result ≠ 0 then Outcome.ok r
      else create_download_directory_visit r path fail_on_exist

/-- Function `create_download_directory(path, mode, fail_on_exist)`; `none` is the NULL
pointer. Each inner call works on a strictly shorter path, so a depth of one more than
the length of the path is always enough (`create_download_directory_returns`). -/
def create_download_directory (fs : FS) (path : Option (List Nat)) (mode : Nat)
    (fail_on_exist : Int) : Outcome ProvisionResult :=
  create_download_directory_rec ((path.getD []).length + 1) fs path mode fail_on_exist []

/-- The non-empty cuts of a path at its separators, and the path itself: the
candidates that `create_download_directory` visits. -/
def cuts (p : List Nat) : List (List Nat) :=
  (((List.range (p.length + 1)).filter
      (fun i => decide (i = p.length) || decide (p[i]? = some SLASH))).map
    (fun i => p.take i)).filter (fun q => decide (q ≠ []))

/-! ## `write_file` (server, lines 229-267) -/

/-- The header as `write_file` holds it after lines 233-242. -/
structure Header where
  sizeOfFileName : Nat
  fileName : List Nat
  size : Int
  sock : Socket
deriving DecidableEq, Repr

/-- Lines 233-242 of `write_file`: the three header reads and their conversions.
`stack` is what the two bytes of `sizeOfFileName` held before, `heap i` what byte `i`
of a fresh allocation holds. -/
def write_file_header (le : Bool) (stack : List Nat) (heap : Nat → Nat) (sock : Socket) :
    Outcome Header :=
  (read_complete_buffer stack 2 sock).bind fun r1 =>
    let sizeOfFileName := ntohs le (u16_of_mem le r1.buffer)
    let fileName0 := (List.range (sizeOfFileName + 1)).map heap
    (read_complete_buffer fileName0 sizeOfFileName r1.sock).bind fun r2 =>
      let fileName := r2.buffer.set sizeOfFileName 0
      (read_complete_buffer [0, 0, 0, 0] 4 r2.sock).bind fun r3 =>
        let size := int32_of_u32 (ntohl le (u32_of_mem le r3.buffer))
        Outcome.ok ⟨sizeOfFileName, fileName, size, r3.sock⟩

/-- State of `write_file` after line 256. -/
structure OpenResult where
  clientIPAdd : List Nat
  dirPath : List Nat
  provisioned : FS
  path : List Nat
  fd : Int
  fs : FS
deriving DecidableEq, Repr

/-- Lines 244-256 of `write_file`: the destination path is put together in the buffer
of `DIRECTORY_SIZE` bytes, the directory is provisioned, the file is opened. The buffer
behind `clientIPAdd` belongs to `inet_ntoa`; its size is not part of the program, so the
separator appended to it is taken to fit. -/
def write_file_open (newDownloadDir clientIPAdd fileName : List Nat) (fs : FS) :
    Outcome OpenResult :=
  let clientIPAdd1 := clientIPAdd ++ [SLASH]
  (strcat DIRECTORY_SIZE newDownloadDir [SLASH]).bind fun d1 =>
    (strcat DIRECTORY_SIZE d1 clientIPAdd1).bind fun d2 =>
      (create_download_directory fs (some d2) 511 0).bind fun p =>
        (error_check p.result p.errno).bind fun _ =>
          (strcat DIRECTORY_SIZE d2 (cstr fileName)).bind fun d3 =>
            let o := open_trunc p.fs d3
            Outcome.ok ⟨clientIPAdd1, d2, p.fs, d3, o.status, o.fs⟩

/-- Lines 258-260 of `write_file`: the body buffer is allocated and cleared and the
pump runs. A negative `size` becomes a request for almost 2^64 bytes, `malloc` hands
back NULL and `memset` writes through it. -/
def write_file_body (size : Int) (fd : Int) (sock : Socket) : Outcome PumpResult :=
  if size < 0 then Outcome.undefined
  else write_complete_buffer sock (List.replicate size.toNat 0) size fd

/-- State of `write_file` when it returns. -/
structure WriteFileResult where
  header : Header
  opened : OpenResult
  pump : PumpResult
  fs : FS
deriving DecidableEq, Repr

/-- Function `write_file(clientIPAdd, downloads_path, socketFD)`. The value returned by
`write_complete_buffer` is dropped; after `close` the destination file holds what was
written on its descriptor. -/
def write_file (le : Bool) (stack : List Nat) (heap : Nat → Nat)
    (clientIPAdd downloads_path : List Nat) (sock : Socket) (fs : FS) :
    Outcome WriteFileResult :=
  (strcpy DIRECTORY_SIZE downloads_path).bind fun newDownloadDir =>
    (write_file_header le stack heap sock).bind fun h =>
      (write_file_open newDownloadDir clientIPAdd h.fileName fs).bind fun o =>
        (write_file_body h.size o.fd h.sock).bind fun b =>
          Outcome.ok ⟨h, o, b, commit o.fs (resolve o.path) b.writes.flatten⟩

/-- Lines 229-256 of `write_file`: the copy of the root into the path buffer, the three
header reads, and the steps up to the `open` of the destination; what `write_file` holds
at that point. -/
def write_file_until_open (le : Bool) (stack : List Nat) (heap : Nat → Nat)
    (clientIPAdd downloads_path : List Nat) (sock : Socket) (fs : FS) :
    Outcome (Header × OpenResult) :=
  (strcpy DIRECTORY_SIZE downloads_path).bind fun newDownloadDir =>
    (write_file_header le stack heap sock).bind fun h =>
      (write_file_open newDownloadDir clientIPAdd h.fileName fs).bind fun o =>
        Outcome.ok (h, o)

/-! ## `sendfile` (client, lines 160-186) -/

/-- System call `write(socket_fd, buf, n)` when the socket takes at most `room` bytes:
the bytes that go out. The program never looks at the value returned. -/
def write_sock (room : Nat) (bytes : List Nat) : List Nat := bytes.take room

/-- Modelled from the spec: `copy` of the absent `copy.h` pumps exactly `size` bytes of
the source file to the socket. -/
def copy (content : List Nat) (size : Nat) : List Nat := content.take size

/-- What `sendfile` has put on the socket: the three header writes, then the body. -/
structure SendResult where
  header : List Nat
  body : List Nat
deriving DecidableEq, Repr

/-- Function `sendfile(socket_fd, filename)`. `file` is the content of the file the name
refers to, if it can be opened; `room1`, `room2`, `room3` are what the socket takes on
the three header writes. -/
def sendfile (le : Bool) (room1 room2 room3 : Nat) (filename : List Nat)
    (file : Option (List Nat)) : Outcome SendResult :=
  (error_check (if file.isSome then 3 else -1) ENOENT).bind fun _ =>
    let st_size := (file.getD []).length
    let realSize := strlen filename
    let filename_size := htons le realSize
    let w1 := write_sock room1 (mem_of_u16 le filename_size)
    let w2 := write_sock room2 (filename.take realSize)
    let fileSIze := htonl le st_size
    let w3 := write_sock room3 (mem_of_u32 le fileSIze)
    Outcome.ok ⟨w1 ++ w2 ++ w3, copy (file.getD []) st_size⟩

/-! ## Conditions on the file system and concrete inputs -/

/-- Creating a missing directory under an existing parent succeeds along `p`: no
candidate of `p` is refused and none is created by another process in between. -/
def MkdirSucceeds (fs : FS) (p : List Nat) : Prop :=
  ∀ q ∈ cuts p, resolve q ∉ fs.denied ∧ resolve q ∉ fs.racing

/-- No candidate of `p` names an existing regular file. -/
def NoFileOn (fs : FS) (p : List Nat) : Prop :=
  ∀ q ∈ cuts p, isFile fs (resolve q) = false

instance (fs : FS) (p : List Nat) : Decidable (MkdirSucceeds fs p) :=
  inferInstanceAs (Decidable (∀ q ∈ cuts p, resolve q ∉ fs.denied ∧ resolve q ∉ fs.racing))

instance (fs : FS) (p : List Nat) : Decidable (NoFileOn fs p) :=
  inferInstanceAs (Decidable (∀ q ∈ cuts p, isFile fs (resolve q) = false))

/-- The file system `fs2` is `fs` with some more directories, each of them the place of
a candidate of `p`; everything that was in `fs` is as it was. -/
def Grown (fs fs2 : FS) (p : List Nat) : Prop :=
  ∃ added : List Node, fs2 = ⟨fs.dirs ++ added, fs.files, fs.denied, fs.racing⟩
    ∧ ∀ n ∈ added, ∃ q ∈ cuts p, n = resolve q

/-- A file system with nothing but the root and the working directory. -/
def emptyFS : FS := ⟨[], [], [], []⟩

/-- Bytes of the name `notes.txt`. -/
def notes_txt : List Nat := [110, 111, 116, 101, 115, 46, 116, 120, 116]

/-- Bytes of `helloworld`. -/
def helloworld : List Nat := [104, 101, 108, 108, 111, 119, 111, 114, 108, 100]

/-- Bytes of the destination root `/tmp/recv`. -/
def tmp_recv : List Nat := [47, 116, 109, 112, 47, 114, 101, 99, 118]

/-- Bytes of the peer identifier `203.0.113.5`. -/
def peer_203 : List Nat := [50, 48, 51, 46, 48, 46, 49, 49, 51, 46, 53]

/-- A file system whose only entry is the regular file `a` in the working directory. -/
def fileA_FS : FS := ⟨[], [(⟨false, [[97]]⟩, [1, 2, 3])], [], []⟩

/-- Bytes of the directory path `/tmp/recv/203.0.113.5/`. -/
def tmp_recv_peer : List Nat := tmp_recv ++ [SLASH] ++ peer_203 ++ [SLASH]

/-- State of the provisioner after `/tmp/recv/203.0.113.5/` on the empty file system. -/
def tmp_recv_peer_provisioned : ProvisionResult :=
  ⟨0, 0,
    ⟨[⟨true, [[116, 109, 112]]⟩, ⟨true, [[116, 109, 112], [114, 101, 99, 118]]⟩,
      ⟨true, [[116, 109, 112], [114, 101, 99, 118], peer_203]⟩], [], [], []⟩,
    [[47, 116, 109, 112], tmp_recv, tmp_recv ++ [SLASH] ++ peer_203]⟩

/-- A fresh allocation filled with the byte 170. -/
def heap170 : Nat → Nat := fun _ => 170

end TcpPush

namespace TcpPush

set_option maxRecDepth 100000

/-! ## The pump `write_complete_buffer` -/

theorem store_take (buffer bytes : List Nat) :
    (store buffer bytes).take bytes.length = bytes := by
  simp [store]

theorem write_fd_valid (fd : Int) (h : fd ≠ -1) (w : List (List Nat)) (b : List Nat) :
    write_fd fd w b = w ++ [b] := by
  simp [write_fd, h]

/-- The loop on a stream that ends before `size` bytes were seen in one segment: every
segment is written, the end of stream is written as an empty payload, and the value
returned is 0. -/
theorem write_complete_buffer_loop_short (size fd : Int) (hfd : fd ≠ -1) :
    ∀ (chunks : List (List Nat)) (fuel : Nat) (ssize : Int) (buffer : List Nat)
      (w : List (List Nat)) (k : Nat),
      chunks.length + 1 ≤ fuel → ssize < size →
      (∀ c ∈ chunks, c ≠ [] ∧ (c.length : Int) < size) →
      write_complete_buffer_loop fuel ssize (chunks.map Seg.data) buffer size fd w k
        = Outcome.ok ⟨0, [], w ++ chunks ++ [[]], k + chunks.length + 1⟩ := by
  intro chunks
  induction chunks with
  | nil =>
    intro fuel ssize buffer w k hfuel hlt _
    obtain ⟨f, rfl⟩ : ∃ f, fuel = f + 1 := ⟨fuel - 1, by simp at hfuel; omega⟩
    simp [write_complete_buffer_loop, hlt, recv, error_check, store, write_fd, hfd,
      Outcome.bind]
  | cons c rest ih =>
    intro fuel ssize buffer w k hfuel hlt hall
    obtain ⟨f, rfl⟩ : ∃ f, fuel = f + 1 := ⟨fuel - 1, by simp at hfuel; omega⟩
    have hc := hall c (List.mem_cons_self c rest)
    have hlen : c.length ≤ size.toNat := by omega
    have hpos : 0 < c.length := List.length_pos.mpr hc.1
    have hne : (c.length : Int) ≠ 0 := by omega
    have hne1 : (c.length : Int) ≠ -1 := by omega
    have hrec := ih f (c.length : Int) (List.replicate size.toNat 0) (w ++ [c]) (k + 1)
      (by simp at hfuel ⊢; omega) hc.2
      (fun d hd => hall d (List.mem_cons_of_mem c hd))
    rw [List.map_cons]
    unfold write_complete_buffer_loop
    simp only [hlt, if_true, recv, hlen, error_check, hne1, if_false, hne, Int.toNat_ofNat,
      store_take, write_fd_valid fd hfd]
    rw [hrec]
    simp [List.length_cons]
    omega

theorem length_add_count_le_flatten (chunks : List (List Nat))
    (hne : ∀ c ∈ chunks, c ≠ []) :
    chunks.length ≤ chunks.flatten.length
    ∧ ∀ c ∈ chunks, c.length + chunks.length ≤ chunks.flatten.length + 1 := by
  induction chunks with
  | nil => simp
  | cons d rest ih =>
    have hd : 0 < d.length := List.length_pos.mpr (hne d (List.mem_cons_self d rest))
    obtain ⟨h1, h2⟩ := ih (fun c hc => hne c (List.mem_cons_of_mem d hc))
    rw [List.flatten_cons, List.length_append, List.length_cons]
    refine ⟨by omega, ?_⟩
    intro c hc
    rcases List.mem_cons.mp hc with h | h
    · subst h; omega
    · have := h2 c h
      omega

/-- Whenever the body arrives in two or more non-empty segments that add up to `size`,
the pump writes them all and then returns 0 on the end of the stream. -/
theorem write_complete_buffer_multi_segment (size fd : Int) (buffer : List Nat)
    (chunks : List (List Nat)) (hfd : fd ≠ -1) (h2 : 2 ≤ chunks.length)
    (hne : ∀ c ∈ chunks, c ≠ []) (hsum : (chunks.flatten.length : Int) = size) :
    write_complete_buffer (chunks.map Seg.data) buffer size fd
      = Outcome.ok ⟨0, [], chunks ++ [[]], chunks.length + 1⟩ := by
  obtain ⟨h1, hall⟩ := length_add_count_le_flatten chunks hne
  have := write_complete_buffer_loop_short size fd hfd chunks
    ((chunks.map Seg.data).length + 1) 0 buffer [] 0 (by simp) (by omega)
    (fun c hc => ⟨hne c hc, by have := hall c hc; omega⟩)
  simpa [write_complete_buffer] using this

/-- When the whole body is the first pending segment, the pump makes one `recv` and one
`write` and returns `size`. -/
theorem write_complete_buffer_single_segment (fd : Int) (buffer body : List Nat)
    (rest : Socket) (hfd : fd ≠ -1) (hpos : 0 < body.length) :
    write_complete_buffer (Seg.data body :: rest) buffer (body.length : Int) fd
      = Outcome.ok ⟨(body.length : Int), rest, [body], 1⟩ := by
  have hne1 : (body.length : Int) ≠ -1 := by omega
  have hne0 : (body.length : Int) ≠ 0 := by omega
  have hlt : (0 : Int) < (body.length : Int) := by omega
  simp only [write_complete_buffer, List.length_cons]
  unfold write_complete_buffer_loop
  simp only [hlt, if_true, recv, Int.toNat_ofNat, le_refl, error_check, hne1, if_false,
    hne0, store_take, write_fd_valid fd hfd]
  unfold write_complete_buffer_loop
  simp

/-- C1: at `size = 10` with the body arriving as a segment of 3 and a segment of 7 bytes,
all ten bytes are written in order, yet the loop goes on to a third `recv`, meets the end
of the stream and `write_complete_buffer` returns 0 instead of 10. -/
theorem write_complete_buffer_two_segments_returns_zero :
    write_complete_buffer [Seg.data (helloworld.take 3), Seg.data (helloworld.drop 3)]
        (List.replicate 10 0) 10 DEST_FD
      = Outcome.ok ⟨0, [], [helloworld.take 3, helloworld.drop 3, []], 3⟩
    ∧ [helloworld.take 3, helloworld.drop 3, []].flatten = helloworld := by
  decide

/-- C3: the two bytes of the filename length of `notes.txt` arrive one at a time; each
`recv` stores at the start of the buffer, so `read_complete_buffer` leaves the second
byte followed by the old content of the buffer (here 7) instead of the two bytes sent,
and `write_file` decodes the length 2311 where 9 was sent. When the second byte arrives
together with the name, the second `recv` asks for two bytes again and takes three bytes
in all from the stream. -/
theorem read_complete_buffer_bytewise_overwrites :
    read_complete_buffer [7, 7] 2
        [Seg.data [0], Seg.data [9], Seg.data notes_txt, Seg.data (be32 10),
          Seg.data helloworld]
      = Outcome.ok ⟨1, [9, 7], [Seg.data notes_txt, Seg.data (be32 10), Seg.data helloworld]⟩
    ∧ (write_file_header true [7, 7] heap170
        [Seg.data [0], Seg.data [9], Seg.data notes_txt, Seg.data (be32 10),
          Seg.data helloworld]).bind (fun h => Outcome.ok h.sizeOfFileName)
      = Outcome.ok 2311
    ∧ be16 9 = [0, 9]
    ∧ read_complete_buffer [7, 7] 2 [Seg.data [0], Seg.data (9 :: notes_txt)]
      = Outcome.ok ⟨2, [9, 110], [Seg.data (notes_txt.drop 1)]⟩ := by
  decide

/-- C5: the size field carries 2^31; `write_file` holds it in an `int32_t`, so the count
for the body is -2147483648, the allocation of the body buffer fails and the run ends in
a write through the NULL pointer instead of a pump of 2^31 bytes. -/
theorem write_file_size_two_pow_31_is_negative :
    (write_file_header true [0, 0] heap170
        [Seg.data (be16 9), Seg.data notes_txt, Seg.data (be32 2147483648)]).bind
      (fun h => Outcome.ok h.size) = Outcome.ok (-2147483648)
    ∧ write_file true [0, 0] heap170 peer_203 tmp_recv
        [Seg.data (be16 9), Seg.data notes_txt, Seg.data (be32 2147483648)] emptyFS
      = Outcome.undefined
    ∧ write_complete_buffer [] [] (-2147483648) DEST_FD = Outcome.ok ⟨0, [], [], 0⟩ := by
  decide

/-- C9: the directory `a` is missing at the existence check and created by another
process before `mkdir`; `mkdir` fails with the status -1 and the errno EEXIST, and with
`fail_on_exist = 0` the call ends the process through `error_check` instead of returning
0. The status -1 is what the code compares with EEXIST. -/
theorem create_download_directory_eexist_is_fatal :
    stat ⟨[], [], [], [⟨false, [[97]]⟩]⟩ [97] = -1
    ∧ (mkdir (intervene ⟨[], [], [], [⟨false, [[97]]⟩]⟩ [97]) [97]).status = -1
    ∧ (mkdir (intervene ⟨[], [], [], [⟨false, [[97]]⟩]⟩ [97]) [97]).errno = EEXIST
    ∧ create_download_directory ⟨[], [], [], [⟨false, [[97]]⟩]⟩ (some [97]) 511 0
      = Outcome.fatal EEXIST
    ∧ (EEXIST : Int) ≠ -1 := by
  decide

/-- C10: with root `/tmp/recv`, peer `203.0.113.5` and a filename of 100 bytes `a`, each
field arriving in one `recv`, the destination path needs 123 bytes; `write_file` appends
it in the buffer of 100 bytes and runs past its end before the file is opened. A name of
100 bytes does not fit whatever the root and the peer are. -/
theorem write_file_long_filename_overruns_buffer :
    write_file true [0, 0] heap170 peer_203 tmp_recv
        [Seg.data (be16 100), Seg.data (List.replicate 100 97), Seg.data (be32 10),
          Seg.data helloworld] emptyFS
      = Outcome.undefined
    ∧ (sendfile true 2 100 4 (List.replicate 100 97) (some helloworld)).bind
        (fun r => Outcome.ok r.header)
      = Outcome.ok (be16 100 ++ List.replicate 100 97 ++ be32 10)
    ∧ strcat DIRECTORY_SIZE [SLASH, SLASH] (List.replicate 100 97) = Outcome.undefined := by
  decide

/-! ## The sender `sendfile` -/

theorem two_bytes (a b : Nat) (ha : a < 256) (hb : b < 256) :
    (a * 256 + b) % 256 = b ∧ ((a * 256 + b) / 256) % 256 = a := by
  constructor <;> omega

theorem four_bytes (a b c d : Nat) (ha : a < 256) (hb : b < 256) (hc : c < 256)
    (hd : d < 256) :
    (a * 16777216 + b * 65536 + c * 256 + d) % 256 = d
    ∧ ((a * 16777216 + b * 65536 + c * 256 + d) / 256) % 256 = c
    ∧ ((a * 16777216 + b * 65536 + c * 256 + d) / 65536) % 256 = b
    ∧ ((a * 16777216 + b * 65536 + c * 256 + d) / 16777216) % 256 = a := by
  refine ⟨?_, ?_, ?_, ?_⟩ <;> omega

/-- On either byte order the memory image of `htons x` is the big-endian pair. -/
theorem mem_of_u16_htons (le : Bool) (x : Nat) (h : x < 65536) :
    mem_of_u16 le (htons le x) = be16 x := by
  have hx : x % 65536 = x := Nat.mod_eq_of_lt h
  cases le
  · simp [mem_of_u16, htons, be16, hx]
  · have t := two_bytes (x % 256) (x / 256 % 256) (Nat.mod_lt _ (by norm_num))
      (Nat.mod_lt _ (by norm_num))
    simp only [mem_of_u16, htons, be16, bswap16, hx, if_true, t.1, t.2]

/-- On either byte order the memory image of `htonl x` is the big-endian quadruple. -/
theorem mem_of_u32_htonl (le : Bool) (x : Nat) (h : x < 4294967296) :
    mem_of_u32 le (htonl le x) = be32 x := by
  have hx : x % 4294967296 = x := Nat.mod_eq_of_lt h
  cases le
  · simp [mem_of_u32, htonl, be32, hx]
  · have t := four_bytes (x % 256) (x / 256 % 256) (x / 65536 % 256) (x / 16777216 % 256)
      (Nat.mod_lt _ (by norm_num)) (Nat.mod_lt _ (by norm_num))
      (Nat.mod_lt _ (by norm_num)) (Nat.mod_lt _ (by norm_num))
    simp only [mem_of_u32, htonl, be32, bswap32, hx, if_true, t.1, t.2.1, t.2.2.1, t.2.2.2]

/-- C4: for every filename of length `L` with `1 ≤ L ≤ 65535` and every file of size
`S ≤ 2^32 - 1`, on a host of either byte order, when each of the three writes is taken
in full, the bytes `sendfile` puts on the socket before the body are the big-endian
two bytes of `L`, the `L` bytes of the name and the big-endian four bytes of `S`,
`L + 6` bytes in all. -/
theorem sendfile_header_wire_format (le : Bool) (room1 room2 room3 : Nat)
    (filename content : List Nat)
    (hL1 : 1 ≤ filename.length) (hL2 : filename.length ≤ 65535)
    (hS : content.length ≤ 4294967295)
    (h1 : 2 ≤ room1) (h2 : filename.length ≤ room2) (h3 : 4 ≤ room3) :
    ∃ r, sendfile le room1 room2 room3 filename (some content) = Outcome.ok r
      ∧ r.header = be16 filename.length ++ filename ++ be32 content.length
      ∧ r.header.length = filename.length + 6 := by
  refine ⟨⟨be16 filename.length ++ filename ++ be32 content.length,
    copy content content.length⟩, ?_, rfl, by simp [be16, be32]⟩
  have e16 : write_sock room1 (mem_of_u16 le (htons le (strlen filename)))
      = be16 filename.length := by
    rw [mem_of_u16_htons le _ (by simp only [strlen]; omega)]
    simp [write_sock, be16, strlen, List.take_of_length_le, h1]
  have e32 : write_sock room3 (mem_of_u32 le (htonl le content.length))
      = be32 content.length := by
    rw [mem_of_u32_htonl le _ (by omega)]
    simp [write_sock, be32, List.take_of_length_le, h3]
  have ename : write_sock room2 (filename.take (strlen filename)) = filename := by
    simp [write_sock, strlen, List.take_of_length_le, h2]
  simp only [sendfile, Option.isSome_some, if_true, error_check, Outcome.bind,
    Option.getD_some]
  simp [e16, e32, ename]

theorem sendfile_header_wire_format_witness :
    ∃ r, sendfile true 2 9 4 notes_txt (some helloworld) = Outcome.ok r
      ∧ r.header = be16 notes_txt.length ++ notes_txt ++ be32 helloworld.length
      ∧ r.header.length = notes_txt.length + 6 :=
  sendfile_header_wire_format true 2 9 4 notes_txt helloworld (by decide) (by decide)
    (by decide) (by decide) (by decide) (by decide)

/-! ## Paths -/

theorem strrchr_none (c : Nat) : ∀ p : List Nat, strrchr p c = none → c ∉ p := by
  intro p
  induction p with
  | nil => intro _; simp
  | cons x xs ih =>
    intro h
    unfold strrchr at h
    cases hxs : strrchr xs c with
    | some i => simp [hxs] at h
    | none =>
      simp only [hxs] at h
      have hx : ¬ x = c := by
        intro e
        simp [e] at h
      have := ih hxs
      simp only [List.mem_cons, not_or]
      exact ⟨fun e => hx e.symm, this⟩

theorem strrchr_some (c : Nat) : ∀ (p : List Nat) (j : Nat), strrchr p c = some j →
    ∃ q r, p = q ++ c :: r ∧ q.length = j ∧ c ∉ r := by
  intro p
  induction p with
  | nil => intro j h; simp [strrchr] at h
  | cons x xs ih =>
    intro j h
    unfold strrchr at h
    cases hxs : strrchr xs c with
    | some i =>
      simp only [hxs, Option.some.injEq] at h
      obtain ⟨q, r, hp, hq, hr⟩ := ih i hxs
      refine ⟨x :: q, r, ?_, ?_, hr⟩
      · rw [hp]; rfl
      · simp [hq, h]
    | none =>
      simp only [hxs] at h
      by_cases hx : x = c
      · simp only [hx, if_true, Option.some.injEq] at h
        refine ⟨[], xs, ?_, ?_, strrchr_none c xs hxs⟩
        · simp [hx]
        · simp [h]
      · simp [hx] at h

theorem foldl_compStep_plain : ∀ (r : List Nat) (acc : List (List Nat)) (cur : List Nat),
    SLASH ∉ r → r.foldl compStep (acc, cur) = (acc, cur ++ r) := by
  intro r
  induction r with
  | nil => intro acc cur _; simp
  | cons x xs ih =>
    intro acc cur h
    simp only [List.mem_cons, not_or] at h
    have hx : ¬ x = SLASH := fun e => h.1 e.symm
    simp only [List.foldl_cons, compStep, hx, if_false]
    rw [ih acc (cur ++ [x]) h.2]
    simp

theorem components_plain (r : List Nat) (h : SLASH ∉ r) : components r = flush [] r := by
  simp [components, foldl_compStep_plain r [] [] h]

theorem components_split (q r : List Nat) (h : SLASH ∉ r) :
    components (q ++ SLASH :: r) = flush (components q) r := by
  simp only [components, List.foldl_append, List.foldl_cons]
  have : compStep (List.foldl compStep ([], []) q) SLASH
      = (flush (List.foldl compStep ([], []) q).1 (List.foldl compStep ([], []) q).2, []) := by
    simp [compStep]
  rw [this, foldl_compStep_plain r _ [] h]
  simp

theorem components_nil : components [] = [] := by
  simp [components, flush]

theorem mem_cuts (p x : List Nat) :
    x ∈ cuts p ↔ x ≠ [] ∧ ∃ i, i ≤ p.length ∧ (i = p.length ∨ p[i]? = some SLASH)
      ∧ x = p.take i := by
  simp only [cuts, List.mem_filter, List.mem_map, List.mem_range, decide_eq_true_eq,
    Bool.or_eq_true]
  constructor
  · rintro ⟨⟨i, ⟨hi, hc⟩, rfl⟩, hne⟩
    exact ⟨hne, i, by omega, hc, rfl⟩
  · rintro ⟨hne, i, hi, hc, rfl⟩
    exact ⟨⟨i, ⟨by omega, hc⟩, rfl⟩, hne⟩

theorem self_mem_cuts (p : List Nat) (h : p ≠ []) : p ∈ cuts p := by
  rw [mem_cuts]
  exact ⟨h, p.length, le_refl _, Or.inl rfl, by simp⟩

theorem cuts_plain (p x : List Nat) (h : SLASH ∉ p) : x ∈ cuts p ↔ x = p ∧ p ≠ [] := by
  rw [mem_cuts]
  constructor
  · rintro ⟨hne, i, hi, hc, rfl⟩
    rcases hc with hc | hc
    · subst hc
      simp only [List.take_length, true_and]
      simpa using hne
    · exfalso
      apply h
      have hlt : i < p.length := by
        by_contra hge
        rw [List.getElem?_eq_none (by omega)] at hc
        cases hc
      rw [List.getElem?_eq_getElem hlt] at hc
      have := List.getElem_mem hlt
      simp only [Option.some.injEq] at hc
      rw [hc] at this
      exact this
  · rintro ⟨rfl, hne⟩
    exact ⟨hne, x.length, le_refl _, Or.inl rfl, by simp⟩

theorem cuts_split (q r x : List Nat) (h : SLASH ∉ r) :
    x ∈ cuts (q ++ SLASH :: r) ↔ x ∈ cuts q ∨ x = q ++ SLASH :: r := by
  rw [mem_cuts, mem_cuts]
  constructor
  · rintro ⟨hne, i, hi, hc, rfl⟩
    rcases hc with hc | hc
    · right; subst hc; simp
    · left
      have hiq : i ≤ q.length := by
        by_contra hgt
        have hgt : q.length < i := by omega
        rw [List.getElem?_append_right (by omega)] at hc
        obtain ⟨k, hk⟩ : ∃ k, i - q.length = k + 1 := ⟨i - q.length - 1, by omega⟩
        rw [hk, List.getElem?_cons_succ] at hc
        apply h
        have hlt : k < r.length := by
          by_contra hge
          rw [List.getElem?_eq_none (by omega)] at hc
          cases hc
        rw [List.getElem?_eq_getElem hlt] at hc
        have := List.getElem_mem hlt
        simp only [Option.some.injEq] at hc
        rw [hc] at this
        exact this
      refine ⟨hne, i, hiq, ?_, ?_⟩
      · rcases Nat.lt_or_ge i q.length with hlt | hge
        · right
          rwa [List.getElem?_append_left hlt] at hc
        · left; omega
      · rw [List.take_append_of_le_length hiq]
  · rintro (⟨hne, i, hi, hc, rfl⟩ | rfl)
    · refine ⟨hne, i, ?_, ?_, ?_⟩
      · simp; omega
      · right
        rcases hc with hc | hc
        · subst hc
          rw [List.getElem?_append_right (le_refl _)]
          simp
        · have hlt : i < q.length := by
            by_contra hge
            rw [List.getElem?_eq_none (by omega)] at hc
            cases hc
          rwa [List.getElem?_append_left hlt]
      · rw [List.take_append_of_le_length hi]
    · exact ⟨by simp, (q ++ SLASH :: r).length, le_refl _, Or.inl rfl, by simp⟩

/-! ## The provisioner `create_download_directory` -/

theorem visit_present (r : ProvisionResult) (path : List Nat) (foe : Int)
    (hne : path ≠ []) (hd : isDir r.fs (resolve path) = true) :
    create_download_directory_visit r path foe = Outcome.ok r := by
  have hs : stat r.fs path = 0 := by simp [stat, hne, hd]
  simp [create_download_directory_visit, strlen, hne, hs]

theorem visit_absent (r : ProvisionResult) (path : List Nat) (foe : Int)
    (hne : path ≠ []) (hnd : isDir r.fs (resolve path) = false)
    (hnf : isFile r.fs (resolve path) = false)
    (hpar : isDir r.fs (resolve path).parent = true)
    (hden : resolve path ∉ r.fs.denied) (hrace : resolve path ∉ r.fs.racing) :
    create_download_directory_visit r path foe
      = Outcome.ok ⟨0, 0, ⟨r.fs.dirs ++ [resolve path], r.fs.files, r.fs.denied,
          r.fs.racing⟩, r.mkdirs ++ [path]⟩ := by
  have hs : stat r.fs path = -1 := by simp [stat, hnd, hnf]
  have hi : intervene r.fs path = r.fs := by simp [intervene, hrace]
  have hm : mkdir r.fs path
      = ⟨0, 0, ⟨r.fs.dirs ++ [resolve path], r.fs.files, r.fs.denied, r.fs.racing⟩⟩ := by
    simp [mkdir, hne, hnd, hnf, hpar, hden]
  simp [create_download_directory_visit, strlen, hne, hs, hi, hm, error_check,
    Outcome.bind]

theorem isDir_append (fs : FS) (added : List Node) (n : Node)
    (h : isDir fs n = true) :
    isDir ⟨fs.dirs ++ added, fs.files, fs.denied, fs.racing⟩ n = true := by
  simp only [isDir, Bool.or_eq_true, decide_eq_true_eq, List.mem_append] at h ⊢
  rcases h with h | h
  · exact Or.inl h
  · exact Or.inr (Or.inl h)

theorem isDir_added (fs : FS) (n : Node) :
    isDir ⟨fs.dirs ++ [n], fs.files, fs.denied, fs.racing⟩ n = true := by
  simp [isDir]

theorem visit_ok (r : ProvisionResult) (path : List Nat) (foe : Int)
    (hne : path ≠ []) (hres : r.result = 0)
    (hpar : isDir r.fs (resolve path) = true ∨ isDir r.fs (resolve path).parent = true)
    (hnf : isFile r.fs (resolve path) = false)
    (hden : resolve path ∉ r.fs.denied) (hrace : resolve path ∉ r.fs.racing) :
    ∃ r2, create_download_directory_visit r path foe = Outcome.ok r2 ∧ r2.result = 0
      ∧ isDir r2.fs (resolve path) = true
      ∧ ((r2.fs = r.fs ∧ r2.mkdirs = r.mkdirs)
        ∨ (r2.fs = ⟨r.fs.dirs ++ [resolve path], r.fs.files, r.fs.denied, r.fs.racing⟩
          ∧ r2.mkdirs = r.mkdirs ++ [path])) := by
  cases hd : isDir r.fs (resolve path) with
  | true =>
    exact ⟨r, visit_present r path foe hne hd, hres, hd, Or.inl ⟨rfl, rfl⟩⟩
  | false =>
    have hp : isDir r.fs (resolve path).parent = true := by
      rcases hpar with h | h
      · rw [hd] at h; cases h
      · exact h
    exact ⟨_, visit_absent r path foe hne hd hnf hp hden hrace, rfl, isDir_added _ _,
      Or.inr ⟨rfl, rfl⟩⟩

/-- The part of `create_download_directory` after the inner call, when the inner call
left every shorter candidate a directory. -/
theorem after_inner (fs : FS) (path : List Nat) (foe : Int) (log : List (List Nat))
    (r1 : ProvisionResult) (hres : r1.result = 0)
    (hg : ∃ added : List Node, r1.fs = ⟨fs.dirs ++ added, fs.files, fs.denied, fs.racing⟩
      ∧ ∀ n ∈ added, ∃ q ∈ cuts path, n = resolve q)
    (hpar : path ≠ [] →
      isDir r1.fs (resolve path) = true ∨ isDir r1.fs (resolve path).parent = true)
    (hprev : ∀ x ∈ cuts path, x ≠ path → isDir r1.fs (resolve x) = true)
    (hm : MkdirSucceeds fs path) (hf : NoFileOn fs path)
    (hlog : ∃ ms, r1.mkdirs = log ++ ms ∧ [] ∉ ms) :
    ∃ r, (if r1.result ≠ 0 then Outcome.ok r1
          else create_download_directory_visit r1 path foe) = Outcome.ok r
      ∧ r.result = 0 ∧ Grown fs r.fs path
      ∧ (∀ x ∈ cuts path, isDir r.fs (resolve x) = true)
      ∧ ∃ ms, r.mkdirs = log ++ ms ∧ [] ∉ ms := by
  simp only [hres, ne_eq, not_true_eq_false, if_false]
  by_cases hne : path = []
  · refine ⟨r1, ?_, hres, hg, ?_, hlog⟩
    · simp [create_download_directory_visit, strlen, hne]
    · intro x hx
      exact hprev x hx (by
        intro e
        rw [mem_cuts] at hx
        exact hx.1 (e.trans hne))
  · obtain ⟨added, hfs, hadded⟩ := hg
    have hself := self_mem_cuts path hne
    have hfiles : r1.fs.files = fs.files := by rw [hfs]
    have hdenied : r1.fs.denied = fs.denied := by rw [hfs]
    have hracing : r1.fs.racing = fs.racing := by rw [hfs]
    have hnf : isFile r1.fs (resolve path) = false := by
      have := hf path hself
      simpa [isFile, hfiles] using this
    obtain ⟨r2, e2, hres2, hd2, hcase⟩ := visit_ok r1 path foe hne hres (hpar hne) hnf
      (by rw [hdenied]; exact (hm path hself).1) (by rw [hracing]; exact (hm path hself).2)
    obtain ⟨ms, hms, hnil⟩ := hlog
    refine ⟨r2, e2, hres2, ?_, ?_, ?_⟩
    · rcases hcase with ⟨h1, _⟩ | ⟨h1, _⟩
      · exact ⟨added, by rw [h1, hfs], hadded⟩
      · refine ⟨added ++ [resolve path], ?_, ?_⟩
        · rw [h1, hfs]; simp
        · intro n hn
          rcases List.mem_append.mp hn with h | h
          · exact hadded n h
          · simp only [List.mem_singleton] at h
            exact ⟨path, hself, h⟩
    · intro x hx
      by_cases hxp : x = path
      · rw [hxp]; exact hd2
      · have := hprev x hx hxp
        rcases hcase with ⟨h1, _⟩ | ⟨h1, _⟩
        · rw [h1]; exact this
        · rw [h1]; exact isDir_append r1.fs [resolve path] _ this
    · rcases hcase with ⟨_, h2⟩ | ⟨_, h2⟩
      · exact ⟨ms, by rw [h2, hms], hnil⟩
      · refine ⟨ms ++ [path], by rw [h2, hms]; simp, ?_⟩
        simp only [List.mem_append, List.mem_singleton, not_or]
        exact ⟨hnil, fun e => hne e.symm⟩

theorem resolve_names_split (q r : List Nat) (h : SLASH ∉ r) :
    (resolve (q ++ SLASH :: r)).names = flush (components q) r := by
  simp [resolve, components_split q r h]

/-- The directory above the last name of `q ++ "/" ++ r` is the place of `q`. -/
theorem upper_isDir (fs : FS) (q r : List Nat)
    (hq : ∀ x ∈ cuts q, isDir fs (resolve x) = true) :
    isDir fs ⟨(resolve (q ++ SLASH :: r)).abs, components q⟩ = true := by
  cases q with
  | nil => simp [isDir, components_nil]
  | cons a t =>
    have := hq (a :: t) (self_mem_cuts _ (by simp))
    simpa [resolve] using this

theorem provision_ok (mode : Nat) (foe : Int) :
    ∀ (fuel : Nat) (path : List Nat) (fs : FS) (log : List (List Nat)),
      path.length < fuel → MkdirSucceeds fs path → NoFileOn fs path →
      ∃ r, create_download_directory_rec fuel fs (some path) mode foe log = Outcome.ok r
        ∧ r.result = 0 ∧ Grown fs r.fs path
        ∧ (∀ x ∈ cuts path, isDir r.fs (resolve x) = true)
        ∧ ∃ ms, r.mkdirs = log ++ ms ∧ [] ∉ ms := by
  intro fuel
  induction fuel with
  | zero => intro path fs log h; omega
  | succ n ih =>
    intro path fs log hlen hm hf
    unfold create_download_directory_rec
    cases hs : strrchr path SLASH with
    | none =>
      have hno := strrchr_none SLASH path hs
      simp only [Outcome.bind]
      apply after_inner fs path foe log ⟨0, 0, fs, log⟩ rfl ⟨[], by simp, by simp⟩ _ _ hm hf
        ⟨[], by simp, by simp⟩
      · intro hne
        right
        simp [isDir, resolve, Node.parent, components_plain path hno, flush, hne]
      · intro x hx hxp
        exact absurd ((cuts_plain path x hno).mp hx).1 hxp
    | some j =>
      obtain ⟨q, r, rfl, hq, hr⟩ := strrchr_some SLASH path j hs
      have htake : (q ++ SLASH :: r).take j = q := by
        rw [← hq]; simp
      have hsub : ∀ x ∈ cuts q, x ∈ cuts (q ++ SLASH :: r) :=
        fun x hx => (cuts_split q r x hr).mpr (Or.inl hx)
      obtain ⟨r1, e1, hres1, ⟨added, hfs, hadded⟩, hdirs1, hlog1⟩ := ih q fs log
        (by simp at hlen; omega) (fun x hx => hm x (hsub x hx)) (fun x hx => hf x (hsub x hx))
      simp only [htake, e1, Outcome.bind]
      apply after_inner fs (q ++ SLASH :: r) foe log r1 hres1
        ⟨added, hfs, fun n hn => by
          obtain ⟨x, hx, e⟩ := hadded n hn
          exact ⟨x, hsub x hx, e⟩⟩ _ _ hm hf hlog1
      · intro _
        have hup := upper_isDir r1.fs q r hdirs1
        by_cases hre : r = []
        · left
          have : resolve (q ++ SLASH :: r)
              = ⟨(resolve (q ++ SLASH :: r)).abs, components q⟩ := by
            have := resolve_names_split q r hr
            rw [hre] at this ⊢
            simp only [flush, if_true] at this
            cases hx : resolve (q ++ [SLASH]) with
            | mk a ns =>
              rw [hx] at this
              simp only at this
              simp [this]
          rw [this]; exact hup
        · right
          have : (resolve (q ++ SLASH :: r)).parent
              = ⟨(resolve (q ++ SLASH :: r)).abs, components q⟩ := by
            simp [Node.parent, resolve_names_split q r hr, flush, hre]
          rw [this]; exact hup
      · intro x hx hxp
        rcases (cuts_split q r x hr).mp hx with h | h
        · exact hdirs1 x h
        · exact absurd h hxp

theorem visit_noop (fs : FS) (path : List Nat) (foe : Int) (log : List (List Nat))
    (h : ∀ x ∈ cuts path, isDir fs (resolve x) = true) :
    create_download_directory_visit ⟨0, 0, fs, log⟩ path foe = Outcome.ok ⟨0, 0, fs, log⟩ := by
  by_cases hne : path = []
  · simp [create_download_directory_visit, strlen, hne]
  · exact visit_present ⟨0, 0, fs, log⟩ path foe hne (h path (self_mem_cuts path hne))

theorem provision_noop (mode : Nat) (foe : Int) :
    ∀ (fuel : Nat) (path : List Nat) (fs : FS) (log : List (List Nat)),
      path.length < fuel → (∀ x ∈ cuts path, isDir fs (resolve x) = true) →
      create_download_directory_rec fuel fs (some path) mode foe log
        = Outcome.ok ⟨0, 0, fs, log⟩ := by
  intro fuel
  induction fuel with
  | zero => intro path fs log h; omega
  | succ n ih =>
    intro path fs log hlen hd
    unfold create_download_directory_rec
    cases hs : strrchr path SLASH with
    | none =>
      simp only [Outcome.bind, ne_eq, not_true_eq_false, if_false]
      exact visit_noop fs path foe log hd
    | some j =>
      obtain ⟨q, r, rfl, hq, hr⟩ := strrchr_some SLASH path j hs
      have htake : (q ++ SLASH :: r).take j = q := by
        rw [← hq]; simp
      have e1 := ih q fs log (by simp at hlen; omega)
        (fun x hx => hd x ((cuts_split q r x hr).mpr (Or.inl hx)))
      simp only [htake, e1, Outcome.bind, ne_eq, not_true_eq_false, if_false]
      exact visit_noop fs (q ++ SLASH :: r) foe log hd

/-- C8 (counterexample): `a` is an existing regular file and nothing stands in the way of
`mkdir`; `create_download_directory` on the path `a` finds it with `stat`, returns 0 and
leaves `a` a regular file, not a directory. -/
theorem create_download_directory_accepts_regular_file :
    MkdirSucceeds fileA_FS [97]
    ∧ create_download_directory fileA_FS (some [97]) 511 0 = Outcome.ok ⟨0, 0, fileA_FS, []⟩
    ∧ [97] ∈ cuts [97]
    ∧ isDir fileA_FS (resolve [97]) = false
    ∧ isFile fileA_FS (resolve [97]) = true := by
  decide

/-- C8 (amended): for every path and every file system in which creating a missing
directory under an existing parent succeeds and in which no non-empty cut of the path at
a separator (the path included) names an existing regular file, the call returns 0;
afterwards every such cut is a directory; `mkdir` was never called on the empty string;
what existed before is as it was, and every new directory is the place of such a cut; a
second call returns 0, calls `mkdir` not at all and leaves the state as it is. -/
theorem create_download_directory_mkdir_p (fs : FS) (path : List Nat) (mode : Nat)
    (fail_on_exist : Int) (hm : MkdirSucceeds fs path) (hf : NoFileOn fs path) :
    ∃ r, create_download_directory fs (some path) mode fail_on_exist = Outcome.ok r
      ∧ r.result = 0
      ∧ (∀ x ∈ cuts path, isDir r.fs (resolve x) = true)
      ∧ [] ∉ r.mkdirs
      ∧ Grown fs r.fs path
      ∧ (∀ n, isDir fs n = true → isDir r.fs n = true)
      ∧ create_download_directory r.fs (some path) mode fail_on_exist
          = Outcome.ok ⟨0, 0, r.fs, []⟩ := by
  obtain ⟨r, e, hres, hg, hd, ms, hms, hnil⟩ := provision_ok mode fail_on_exist
    (path.length + 1) path fs [] (Nat.lt_succ_self _) hm hf
  refine ⟨r, by simpa [create_download_directory] using e, hres, hd, ?_, hg, ?_, ?_⟩
  · rw [hms]; simpa using hnil
  · intro n hn
    obtain ⟨added, hfs, _⟩ := hg
    rw [hfs]; exact isDir_append fs added n hn
  · have := provision_noop mode fail_on_exist (path.length + 1) path r.fs []
      (Nat.lt_succ_self _) hd
    simpa [create_download_directory] using this

theorem create_download_directory_mkdir_p_witness :
    ∃ r, create_download_directory emptyFS (some tmp_recv_peer) 511 0 = Outcome.ok r
      ∧ r.result = 0
      ∧ (∀ x ∈ cuts tmp_recv_peer, isDir r.fs (resolve x) = true)
      ∧ [] ∉ r.mkdirs
      ∧ Grown emptyFS r.fs tmp_recv_peer
      ∧ (∀ n, isDir emptyFS n = true → isDir r.fs n = true)
      ∧ create_download_directory r.fs (some tmp_recv_peer) 511 0
          = Outcome.ok ⟨0, 0, r.fs, []⟩ :=
  create_download_directory_mkdir_p emptyFS tmp_recv_peer 511 0 (by decide) (by decide)

/-! ## The receiver `write_file` -/

theorem cstr_terminated (name : List Nat) (h : 0 ∉ name) : cstr (name ++ [0]) = name := by
  induction name with
  | nil => simp [cstr]
  | cons a t ih =>
    simp only [List.mem_cons, not_or] at h
    have ha : a ≠ 0 := fun e => h.1 e.symm
    have := ih h.2
    simp only [cstr] at this ⊢
    rw [List.cons_append, List.takeWhile_cons]
    simp only [ne_eq, ha, not_false_eq_true, decide_True, if_true]
    rw [this]

theorem cstr_append_zero (name : List Nat) : cstr (name ++ [0]) = cstr name := by
  induction name with
  | nil => simp [cstr]
  | cons a t ih =>
    simp only [cstr] at ih ⊢
    rw [List.cons_append, List.takeWhile_cons, List.takeWhile_cons, ih]

theorem cstr_of_no_zero (name : List Nat) (h : 0 ∉ name) : cstr name = name := by
  rw [← cstr_append_zero, cstr_terminated name h]

/-- Lines 244-256 when the path fits the buffer and the provisioner has returned 0. -/
theorem write_file_open_provisioned (root peer fileName : List Nat) (fs : FS)
    (p : ProvisionResult)
    (hfit : root.length + peer.length + (cstr fileName).length + 3 ≤ DIRECTORY_SIZE)
    (hprov : create_download_directory fs (some (root ++ [SLASH] ++ peer ++ [SLASH])) 511 0
      = Outcome.ok p)
    (hres : p.result = 0) :
    write_file_open root peer fileName fs
      = Outcome.ok ⟨peer ++ [SLASH], root ++ [SLASH] ++ peer ++ [SLASH], p.fs,
          root ++ [SLASH] ++ peer ++ [SLASH] ++ cstr fileName,
          (open_trunc p.fs (root ++ [SLASH] ++ peer ++ [SLASH] ++ cstr fileName)).status,
          (open_trunc p.fs (root ++ [SLASH] ++ peer ++ [SLASH] ++ cstr fileName)).fs⟩ := by
  have h1 : root.length + [SLASH].length + 1 ≤ DIRECTORY_SIZE := by
    simp only [List.length_singleton]; omega
  have h2 : (root ++ [SLASH]).length + (peer ++ [SLASH]).length + 1 ≤ DIRECTORY_SIZE := by
    simp only [List.length_append, List.length_singleton]; omega
  have h3 : (root ++ [SLASH] ++ (peer ++ [SLASH])).length + (cstr fileName).length + 1
      ≤ DIRECTORY_SIZE := by
    simp only [List.length_append, List.length_singleton]; omega
  have e2 : create_download_directory fs (some (root ++ [SLASH] ++ (peer ++ [SLASH]))) 511 0
      = Outcome.ok p := by
    rw [← hprov]; simp
  have hne : p.result ≠ -1 := by rw [hres]; decide
  simp only [write_file_open, strcat, h1, h2, h3, if_true, Outcome.bind, e2, error_check,
    hne, if_false]
  simp

/-- Lines 244-256 when the path fits the buffer and nothing stands in the way of the
provisioner. -/
theorem write_file_open_ok (root peer fileName : List Nat) (fs : FS)
    (hfit : root.length + peer.length + (cstr fileName).length + 3 ≤ DIRECTORY_SIZE)
    (hm : MkdirSucceeds fs (root ++ [SLASH] ++ peer ++ [SLASH]))
    (hf : NoFileOn fs (root ++ [SLASH] ++ peer ++ [SLASH])) :
    ∃ p, create_download_directory fs (some (root ++ [SLASH] ++ peer ++ [SLASH])) 511 0
        = Outcome.ok p
      ∧ (∀ x ∈ cuts (root ++ [SLASH] ++ peer ++ [SLASH]), isDir p.fs (resolve x) = true)
      ∧ write_file_open root peer fileName fs
        = Outcome.ok ⟨peer ++ [SLASH], root ++ [SLASH] ++ peer ++ [SLASH], p.fs,
            root ++ [SLASH] ++ peer ++ [SLASH] ++ cstr fileName,
            (open_trunc p.fs (root ++ [SLASH] ++ peer ++ [SLASH] ++ cstr fileName)).status,
            (open_trunc p.fs (root ++ [SLASH] ++ peer ++ [SLASH] ++ cstr fileName)).fs⟩ := by
  obtain ⟨p, e0, hres, _, hd, _⟩ := provision_ok 511 0
    ((root ++ [SLASH] ++ peer ++ [SLASH]).length + 1) (root ++ [SLASH] ++ peer ++ [SLASH]) fs []
    (Nat.lt_succ_self _) hm hf
  have e : create_download_directory fs (some (root ++ [SLASH] ++ peer ++ [SLASH])) 511 0
      = Outcome.ok p := by
    simpa [create_download_directory] using e0
  refine ⟨p, e, hd, ?_⟩
  have h1 : root.length + [SLASH].length + 1 ≤ DIRECTORY_SIZE := by
    simp only [List.length_singleton]; omega
  have h2 : (root ++ [SLASH]).length + (peer ++ [SLASH]).length + 1 ≤ DIRECTORY_SIZE := by
    simp only [List.length_append, List.length_singleton]; omega
  have h3 : (root ++ [SLASH] ++ (peer ++ [SLASH])).length + (cstr fileName).length + 1
      ≤ DIRECTORY_SIZE := by
    simp only [List.length_append, List.length_singleton]; omega
  have e2 : create_download_directory fs (some (root ++ [SLASH] ++ (peer ++ [SLASH]))) 511 0
      = Outcome.ok p := by
    rw [← e]; simp
  have hne : p.result ≠ -1 := by rw [hres]; decide
  simp only [write_file_open, strcat, h1, h2, h3, if_true, Outcome.bind, e2, error_check,
    hne, if_false]
  simp

/-- C6 (counterexample): the filename field carries the three bytes `a`, 0, `b`; the path
that `write_file` opens ends in `a`, the C string in the filename buffer, not in the
three bytes received. -/
theorem write_file_path_stops_at_zero_byte :
    (write_file true [0, 0] heap170 peer_203 tmp_recv
        [Seg.data (be16 3), Seg.data [97, 0, 98], Seg.data (be32 10), Seg.data helloworld]
        emptyFS).bind (fun r => Outcome.ok (r.header.fileName, r.opened.path))
      = Outcome.ok ([97, 0, 98, 0], tmp_recv ++ [SLASH] ++ peer_203 ++ [SLASH] ++ [97])
    ∧ tmp_recv ++ [SLASH] ++ peer_203 ++ [SLASH] ++ [97]
      ≠ tmp_recv ++ [SLASH] ++ peer_203 ++ [SLASH] ++ [97, 0, 98] := by
  decide

theorem read_complete_buffer_whole (buffer c : List Nat) (rest : Socket)
    (hpos : 0 < c.length) :
    read_complete_buffer buffer c.length (Seg.data c :: rest)
      = Outcome.ok ⟨c.length, store buffer c, rest⟩ := by
  have hne1 : (c.length : Int) ≠ -1 := by omega
  have hne0 : c.length ≠ 0 := by omega
  simp only [read_complete_buffer, List.length_cons]
  unfold read_complete_buffer_loop
  simp [hpos, recv, error_check, hne1, hne0]

theorem swap_two_bytes (h l : Nat) (hh : h < 256) (hl : l < 256) :
    bswap16 ((h + 256 * l) % 65536) = h * 256 + l := by
  have e : (h + 256 * l) % 65536 = h + 256 * l := Nat.mod_eq_of_lt (by omega)
  rw [e]
  unfold bswap16
  omega

theorem swap_four_bytes (a b c d : Nat) (ha : a < 256) (hb : b < 256) (hc : c < 256)
    (hd : d < 256) :
    bswap32 ((a + 256 * b + 65536 * c + 16777216 * d) % 4294967296)
      = a * 16777216 + b * 65536 + c * 256 + d := by
  have e : (a + 256 * b + 65536 * c + 16777216 * d) % 4294967296
      = a + 256 * b + 65536 * c + 16777216 * d := Nat.mod_eq_of_lt (by omega)
  rw [e]
  have h1 : (a + 256 * b + 65536 * c + 16777216 * d) % 256 = a := by omega
  have h2 : (a + 256 * b + 65536 * c + 16777216 * d) / 256 % 256 = b := by omega
  have h3 : (a + 256 * b + 65536 * c + 16777216 * d) / 65536 % 256 = c := by omega
  have h4 : (a + 256 * b + 65536 * c + 16777216 * d) / 16777216 % 256 = d := by omega
  unfold bswap32
  rw [h1, h2, h3, h4]

/-- On either byte order `ntohs` of the big-endian pair in memory is the value sent. -/
theorem ntohs_u16_of_mem (le : Bool) (x : Nat) (tail : List Nat) (h : x < 65536) :
    ntohs le (u16_of_mem le (be16 x ++ tail)) = x := by
  cases le
  · simp only [ntohs, htons, u16_of_mem, be16, Bool.false_eq_true, if_false,
      List.cons_append, List.getD_cons_zero, List.getD_cons_succ]
    omega
  · simp only [ntohs, htons, u16_of_mem, be16, if_true,
      List.cons_append, List.getD_cons_zero, List.getD_cons_succ]
    rw [swap_two_bytes _ _ (Nat.mod_lt _ (by norm_num)) (Nat.mod_lt _ (by norm_num))]
    omega

/-- On either byte order `ntohl` of the big-endian quadruple in memory is the value
sent. -/
theorem ntohl_u32_of_mem (le : Bool) (x : Nat) (tail : List Nat) (h : x < 4294967296) :
    ntohl le (u32_of_mem le (be32 x ++ tail)) = x := by
  cases le
  · simp only [ntohl, htonl, u32_of_mem, be32, Bool.false_eq_true, if_false,
      List.cons_append, List.getD_cons_zero, List.getD_cons_succ]
    omega
  · simp only [ntohl, htonl, u32_of_mem, be32, if_true,
      List.cons_append, List.getD_cons_zero, List.getD_cons_succ]
    rw [swap_four_bytes _ _ _ _ (Nat.mod_lt _ (by norm_num)) (Nat.mod_lt _ (by norm_num))
      (Nat.mod_lt _ (by norm_num)) (Nat.mod_lt _ (by norm_num))]
    omega

theorem set_terminator (name l : List Nat) (hl : l.length = name.length + 1) :
    (name ++ l.drop name.length).set name.length 0 = name ++ [0] := by
  have h1 : (l.drop name.length).length = 1 := by simp [hl]
  obtain ⟨x, hx⟩ := List.length_eq_one.mp h1
  rw [hx]
  induction name with
  | nil => simp
  | cons a t ih => simp [ih]

/-- The three header reads when each field arrives as one segment. -/
theorem write_file_header_whole (le : Bool) (stack : List Nat) (heap : Nat → Nat)
    (name : List Nat) (S : Nat) (rest : Socket)
    (hL1 : 1 ≤ name.length) (hL2 : name.length ≤ 65535) (hS : S ≤ 2147483647) :
    write_file_header le stack heap
        (Seg.data (be16 name.length) :: Seg.data name :: Seg.data (be32 S) :: rest)
      = Outcome.ok ⟨name.length, name ++ [0], (S : Int), rest⟩ := by
  have r1 := read_complete_buffer_whole stack (be16 name.length)
    (Seg.data name :: Seg.data (be32 S) :: rest) (by simp [be16])
  have r2 := read_complete_buffer_whole ((List.range (name.length + 1)).map heap) name
    (Seg.data (be32 S) :: rest) (by omega)
  have r3 := read_complete_buffer_whole [0, 0, 0, 0] (be32 S) rest (by simp [be32])
  have l2 : (be16 name.length).length = 2 := rfl
  have l4 : (be32 S).length = 4 := rfl
  rw [l2] at r1
  rw [l4] at r3
  have d16 : ntohs le (u16_of_mem le (store stack (be16 name.length))) = name.length :=
    ntohs_u16_of_mem le name.length _ (by omega)
  have d32 : ntohl le (u32_of_mem le (store [0, 0, 0, 0] (be32 S))) = S :=
    ntohl_u32_of_mem le S _ (by omega)
  have hterm := set_terminator name ((List.range (name.length + 1)).map heap) (by simp)
  have hi : int32_of_u32 S = (S : Int) := by
    have e : S % 4294967296 = S := Nat.mod_eq_of_lt (by omega)
    have hlt : S < 2147483648 := by omega
    simp [int32_of_u32, e, hlt]
  simp only [write_file_header, r1, Outcome.bind, d16, r2, r3, d32, hi]
  simp only [store] at hterm ⊢
  rw [hterm]

theorem open_trunc_ok (fs : FS) (p : List Nat) (h : (open_trunc fs p).status ≠ -1) :
    open_trunc fs p = ⟨DEST_FD, 0, ⟨fs.dirs,
      (fs.files.filter (fun f => decide (f.1 ≠ resolve p))) ++ [(resolve p, [])],
      fs.denied, fs.racing⟩⟩ := by
  unfold open_trunc at h ⊢
  split_ifs at h ⊢ <;> simp_all

theorem fileContent_commit (d : List Node) (fl : List (Node × List Nat))
    (dn rc : List Node) (n : Node) (body : List Nat) :
    fileContent (commit ⟨d, fl.filter (fun f => decide (f.1 ≠ n)) ++ [(n, [])], dn, rc⟩
      n body) n = some body := by
  have hnone : List.find? (fun f => decide (f.1 = n))
      ((fl.filter (fun f => decide (f.1 ≠ n))).map
        (fun f => if f.1 = n then (f.1, f.2 ++ body) else f)) = none := by
    rw [List.find?_eq_none]
    intro x hx
    obtain ⟨f, hf, rfl⟩ := List.mem_map.mp hx
    have hfn : f.1 ≠ n := by simpa using (List.mem_filter.mp hf).2
    simp [hfn]
  simp only [fileContent, commit, List.map_append, List.find?_append, hnone]
  simp

/-- The single-recv path (scenario A in general): the filename has no zero byte, the
path with its terminator fits the buffer of `DIRECTORY_SIZE` bytes, each header field
and the body arrive as one segment, the provisioner meets no obstacle and the `open`
succeeds. Then `write_file` decodes the length, name and size that were sent, the pump
makes one `recv` and one `write` and returns the size, and the destination file holds
the body. -/
theorem write_file_single_recv (le : Bool) (stack : List Nat) (heap : Nat → Nat)
    (root peer name body : List Nat) (fs : FS)
    (hz : 0 ∉ name) (hL1 : 1 ≤ name.length) (hL2 : name.length ≤ 65535)
    (hS1 : 1 ≤ body.length) (hS2 : body.length ≤ 2147483647)
    (hfit : root.length + peer.length + name.length + 3 ≤ DIRECTORY_SIZE)
    (hm : MkdirSucceeds fs (root ++ [SLASH] ++ peer ++ [SLASH]))
    (hf : NoFileOn fs (root ++ [SLASH] ++ peer ++ [SLASH]))
    (hopen : ∀ p, create_download_directory fs (some (root ++ [SLASH] ++ peer ++ [SLASH]))
        511 0 = Outcome.ok p →
      (open_trunc p.fs (root ++ [SLASH] ++ peer ++ [SLASH] ++ name)).status ≠ -1) :
    ∃ r, write_file le stack heap peer root
        [Seg.data (be16 name.length), Seg.data name, Seg.data (be32 body.length),
          Seg.data body] fs = Outcome.ok r
      ∧ r.header.sizeOfFileName = name.length
      ∧ r.header.fileName = name ++ [0]
      ∧ r.header.size = (body.length : Int)
      ∧ r.opened.path = root ++ [SLASH] ++ peer ++ [SLASH] ++ name
      ∧ r.pump = ⟨(body.length : Int), [], [body], 1⟩
      ∧ fileContent r.fs (resolve r.opened.path) = some body := by
  have hc := cstr_terminated name hz
  obtain ⟨p, ep, _, eo⟩ := write_file_open_ok root peer (name ++ [0]) fs
    (by rw [hc]; exact hfit) hm hf
  rw [hc] at eo
  have ho := open_trunc_ok p.fs _ (hopen p ep)
  rw [ho] at eo
  have hh := write_file_header_whole le stack heap name body.length [Seg.data body]
    hL1 hL2 hS2
  have hcopy : root.length + 1 ≤ DIRECTORY_SIZE := by omega
  have hfd : DEST_FD ≠ -1 := by decide
  have hb := write_complete_buffer_single_segment DEST_FD
    (List.replicate body.length 0) body [] hfd (by omega)
  have hnn : ¬ (body.length : Int) < 0 := by omega
  simp only [write_file, strcpy, hcopy, if_true, Outcome.bind, hh, eo, write_file_body,
    hnn, if_false, Int.toNat_ofNat, hb]
  refine ⟨_, rfl, rfl, rfl, rfl, rfl, rfl, ?_⟩
  simp only [List.flatten_cons, List.flatten_nil, List.append_nil]
  exact fileContent_commit _ _ _ _ _ _

/-- Scenario A of the specification on the general statement: `notes.txt` with the body
`helloworld` from peer `203.0.113.5` under the root `/tmp/recv`. -/
theorem write_file_single_recv_scenario_A :
    ∃ r, write_file true [0, 0] heap170 peer_203 tmp_recv
        [Seg.data (be16 notes_txt.length), Seg.data notes_txt,
          Seg.data (be32 helloworld.length), Seg.data helloworld] emptyFS = Outcome.ok r
      ∧ r.header.sizeOfFileName = notes_txt.length
      ∧ r.header.fileName = notes_txt ++ [0]
      ∧ r.header.size = (helloworld.length : Int)
      ∧ r.opened.path = tmp_recv ++ [SLASH] ++ peer_203 ++ [SLASH] ++ notes_txt
      ∧ r.pump = ⟨(helloworld.length : Int), [], [helloworld], 1⟩
      ∧ fileContent r.fs (resolve r.opened.path) = some helloworld :=
  write_file_single_recv true [0, 0] heap170 tmp_recv peer_203 notes_txt helloworld emptyFS
    (by decide) (by decide) (by decide) (by decide) (by decide) (by decide) (by decide)
    (by decide)
    (by
      intro p hp
      have h0 : create_download_directory emptyFS
          (some (tmp_recv ++ [SLASH] ++ peer_203 ++ [SLASH])) 511 0
          = Outcome.ok tmp_recv_peer_provisioned := by decide
      rw [h0] at hp
      cases hp
      decide)

/-! ## `write_file` from the socket to the `open` and to its return -/

/-- The three header reads when each field arrives as one segment, for every value of
the size field. -/
theorem write_file_header_fields (le : Bool) (stack : List Nat) (heap : Nat → Nat)
    (name : List Nat) (S : Nat) (rest : Socket)
    (hL1 : 1 ≤ name.length) (hL2 : name.length ≤ 65535) (hS : S ≤ 4294967295) :
    write_file_header le stack heap
        (Seg.data (be16 name.length) :: Seg.data name :: Seg.data (be32 S) :: rest)
      = Outcome.ok ⟨name.length, name ++ [0], int32_of_u32 S, rest⟩ := by
  have r1 := read_complete_buffer_whole stack (be16 name.length)
    (Seg.data name :: Seg.data (be32 S) :: rest) (by simp [be16])
  have r2 := read_complete_buffer_whole ((List.range (name.length + 1)).map heap) name
    (Seg.data (be32 S) :: rest) (by omega)
  have r3 := read_complete_buffer_whole [0, 0, 0, 0] (be32 S) rest (by simp [be32])
  have l2 : (be16 name.length).length = 2 := rfl
  have l4 : (be32 S).length = 4 := rfl
  rw [l2] at r1
  rw [l4] at r3
  have d16 : ntohs le (u16_of_mem le (store stack (be16 name.length))) = name.length :=
    ntohs_u16_of_mem le name.length _ (by omega)
  have d32 : ntohl le (u32_of_mem le (store [0, 0, 0, 0] (be32 S))) = S :=
    ntohl_u32_of_mem le S _ (by omega)
  have hterm := set_terminator name ((List.range (name.length + 1)).map heap) (by simp)
  simp only [write_file_header, r1, Outcome.bind, d16, r2, r3, d32]
  simp only [store] at hterm ⊢
  rw [hterm]

/-- The run of `write_file` is its lines 229-256 followed by the body and the close. -/
theorem write_file_after_open (le : Bool) (stack : List Nat) (heap : Nat → Nat)
    (clientIPAdd downloads_path : List Nat) (sock : Socket) (fs : FS) :
    write_file le stack heap clientIPAdd downloads_path sock fs
      = (write_file_until_open le stack heap clientIPAdd downloads_path sock fs).bind
          fun ho => (write_file_body ho.1.size ho.2.fd ho.1.sock).bind fun b =>
            Outcome.ok ⟨ho.1, ho.2, b, commit ho.2.fs (resolve ho.2.path) b.writes.flatten⟩ := by
  unfold write_file write_file_until_open
  cases strcpy DIRECTORY_SIZE downloads_path with
  | ok d =>
    simp only [Outcome.bind]
    cases write_file_header le stack heap sock with
    | ok h =>
      simp only
      cases write_file_open d clientIPAdd h.fileName fs with
      | ok o => rfl
      | fatal e => rfl
      | undefined => rfl
      | diverged => rfl
    | fatal e => rfl
    | undefined => rfl
    | diverged => rfl
  | fatal e => rfl
  | undefined => rfl
  | diverged => rfl

/-- C6 (amended): for every root, peer identifier and received filename of 1 to 65535
bytes, when each of the three header fields arrives in a single `recv`, the joined path
with its terminator fits the buffer of `DIRECTORY_SIZE` bytes and the provisioner
returns 0, `write_file` reaches the `open` with the filename buffer holding the bytes
received and a terminator, and the path it opens is root, `/`, peer, `/` and the
received filename up to its first zero byte; for a filename without a zero byte that is
root, `/`, peer, `/`, filename. The rest of `write_file` runs from that state. -/
theorem write_file_destination_path (le : Bool) (stack : List Nat) (heap : Nat → Nat)
    (root peer name : List Nat) (S : Nat) (rest : Socket) (fs : FS) (p : ProvisionResult)
    (hL1 : 1 ≤ name.length) (hL2 : name.length ≤ 65535) (hS : S ≤ 4294967295)
    (hfit : root.length + peer.length + (cstr name).length + 3 ≤ DIRECTORY_SIZE)
    (hprov : create_download_directory fs (some (root ++ [SLASH] ++ peer ++ [SLASH])) 511 0
      = Outcome.ok p)
    (hres : p.result = 0) :
    ∃ h o, write_file_until_open le stack heap peer root
          (Seg.data (be16 name.length) :: Seg.data name :: Seg.data (be32 S) :: rest) fs
        = Outcome.ok (h, o)
      ∧ h.fileName = name ++ [0]
      ∧ o.path = root ++ [SLASH] ++ peer ++ [SLASH] ++ cstr name
      ∧ (0 ∉ name → o.path = root ++ [SLASH] ++ peer ++ [SLASH] ++ name)
      ∧ write_file le stack heap peer root
          (Seg.data (be16 name.length) :: Seg.data name :: Seg.data (be32 S) :: rest) fs
        = (write_file_body h.size o.fd h.sock).bind fun b =>
            Outcome.ok ⟨h, o, b, commit o.fs (resolve o.path) b.writes.flatten⟩ := by
  have hh := write_file_header_fields le stack heap name S rest hL1 hL2 hS
  have hc := cstr_append_zero name
  have eo := write_file_open_provisioned root peer (name ++ [0]) fs p
    (by rw [hc]; exact hfit) hprov hres
  rw [hc] at eo
  have hcopy : root.length + 1 ≤ DIRECTORY_SIZE := by omega
  have hu : write_file_until_open le stack heap peer root
      (Seg.data (be16 name.length) :: Seg.data name :: Seg.data (be32 S) :: rest) fs
      = Outcome.ok (⟨name.length, name ++ [0], int32_of_u32 S, rest⟩,
          ⟨peer ++ [SLASH], root ++ [SLASH] ++ peer ++ [SLASH], p.fs,
            root ++ [SLASH] ++ peer ++ [SLASH] ++ cstr name,
            (open_trunc p.fs (root ++ [SLASH] ++ peer ++ [SLASH] ++ cstr name)).status,
            (open_trunc p.fs (root ++ [SLASH] ++ peer ++ [SLASH] ++ cstr name)).fs⟩) := by
    simp only [write_file_until_open, strcpy, hcopy, if_true, Outcome.bind, hh, eo]
  refine ⟨_, _, hu, rfl, rfl, ?_, ?_⟩
  · intro hz
    simp only [cstr_of_no_zero name hz]
  · rw [write_file_after_open, hu]
    rfl

theorem write_file_destination_path_witness :
    ∃ h o, write_file_until_open true [0, 0] heap170 peer_203 tmp_recv
          (Seg.data (be16 notes_txt.length) :: Seg.data notes_txt :: Seg.data (be32 10)
            :: [Seg.data helloworld]) emptyFS
        = Outcome.ok (h, o)
      ∧ h.fileName = notes_txt ++ [0]
      ∧ o.path = tmp_recv ++ [SLASH] ++ peer_203 ++ [SLASH] ++ cstr notes_txt
      ∧ (0 ∉ notes_txt → o.path = tmp_recv ++ [SLASH] ++ peer_203 ++ [SLASH] ++ notes_txt)
      ∧ write_file true [0, 0] heap170 peer_203 tmp_recv
          (Seg.data (be16 notes_txt.length) :: Seg.data notes_txt :: Seg.data (be32 10)
            :: [Seg.data helloworld]) emptyFS
        = (write_file_body h.size o.fd h.sock).bind fun b =>
            Outcome.ok ⟨h, o, b, commit o.fs (resolve o.path) b.writes.flatten⟩ :=
  write_file_destination_path true [0, 0] heap170 tmp_recv peer_203 notes_txt 10
    [Seg.data helloworld] emptyFS tmp_recv_peer_provisioned (by decide) (by decide)
    (by decide) (by decide) (by decide) (by decide)

theorem bind_ne_diverged {α β : Type} (x : Outcome α) (f : α → Outcome β)
    (hx : x ≠ Outcome.diverged) (hf : ∀ a, f a ≠ Outcome.diverged) :
    x.bind f ≠ Outcome.diverged := by
  cases x with
  | ok a => exact hf a
  | fatal e => simp [Outcome.bind]
  | undefined => simp [Outcome.bind]
  | diverged => exact absurd rfl hx

theorem write_complete_buffer_loop_returns (size fd : Int) :
    ∀ (fuel : Nat) (ssize : Int) (sock : Socket) (buffer : List Nat)
      (w : List (List Nat)) (k : Nat),
      (sock.length + 1 ≤ fuel ∨ (1 ≤ fuel ∧ ¬ ssize < size)) →
      write_complete_buffer_loop fuel ssize sock buffer size fd w k ≠ Outcome.diverged := by
  intro fuel
  induction fuel with
  | zero => intro ssize sock buffer w k h; omega
  | succ n ih =>
    intro ssize sock buffer w k h
    unfold write_complete_buffer_loop
    by_cases hlt : ssize < size
    · have hfuel : sock.length + 1 ≤ n + 1 := by
        rcases h with h | h
        · exact h
        · exact absurd hlt h.2
      simp only [hlt, if_true]
      cases sock with
      | nil => simp [recv, error_check, fatal_errno]
      | cons s rest =>
        cases s with
        | error e => simp [recv, error_check, fatal_errno]
        | data c =>
          by_cases hc : c.length ≤ size.toNat
          · have hne1 : (c.length : Int) ≠ -1 := by omega
            simp only [recv, hc, if_true, error_check, hne1, if_false]
            by_cases h0 : (c.length : Int) = 0
            · simp [h0]
            · simp only [h0, if_false]
              exact ih _ _ _ _ _ (Or.inl (by simp at hfuel; omega))
          · have hne1 : ((size.toNat : Nat) : Int) ≠ -1 := by omega
            simp only [recv, hc, if_false, error_check, hne1]
            by_cases h0 : ((size.toNat : Nat) : Int) = 0
            · simp [h0]
            · simp only [h0, if_false]
              exact ih _ _ _ _ _ (Or.inr ⟨by simp at hfuel; omega, by omega⟩)
    · simp [hlt]

/-- The pump always comes back: it returns or ends the process. -/
theorem write_complete_buffer_returns (sock : Socket) (buffer : List Nat) (size fd : Int) :
    write_complete_buffer sock buffer size fd ≠ Outcome.diverged :=
  write_complete_buffer_loop_returns size fd _ _ _ _ _ _ (Or.inl (le_refl _))

theorem read_complete_buffer_loop_returns (size : Nat) :
    ∀ (fuel : Nat) (nread sum : Nat) (buffer : List Nat) (sock : Socket),
      (sock.length + 1 ≤ fuel ∨ (1 ≤ fuel ∧ ¬ nread < size)) →
      read_complete_buffer_loop fuel nread sum buffer size sock ≠ Outcome.diverged := by
  intro fuel
  induction fuel with
  | zero => intro nread sum buffer sock h; omega
  | succ n ih =>
    intro nread sum buffer sock h
    unfold read_complete_buffer_loop
    by_cases hlt : nread < size
    · have hfuel : sock.length + 1 ≤ n + 1 := by
        rcases h with h | h
        · exact h
        · exact absurd hlt h.2
      simp only [hlt, if_true]
      cases sock with
      | nil => simp [recv, error_check, fatal_errno]
      | cons s rest =>
        cases s with
        | error e => simp [recv, error_check, fatal_errno]
        | data c =>
          by_cases hc : c.length ≤ size
          · have hne1 : (c.length : Int) ≠ -1 := by omega
            simp only [recv, hc, if_true, error_check, hne1, if_false, Int.toNat_ofNat]
            split_ifs
            · simp
            · exact ih _ _ _ _ (Or.inl (by simp at hfuel; omega))
          · have hne1 : (size : Int) ≠ -1 := by omega
            simp only [recv, hc, if_false, error_check, hne1, Int.toNat_ofNat]
            split_ifs
            · simp
            · exact ih _ _ _ _ (Or.inr ⟨by simp at hfuel; omega, by omega⟩)
    · simp [hlt]

/-- A header read always comes back: it returns or ends the process. -/
theorem read_complete_buffer_returns (buffer : List Nat) (size : Nat) (sock : Socket) :
    read_complete_buffer buffer size sock ≠ Outcome.diverged :=
  read_complete_buffer_loop_returns size _ _ _ _ _ (Or.inl (le_refl _))

theorem visit_returns (r : ProvisionResult) (path : List Nat) (foe : Int) :
    create_download_directory_visit r path foe ≠ Outcome.diverged := by
  unfold create_download_directory_visit
  split_ifs
  · apply bind_ne_diverged
    · unfold error_check fatal_errno; split_ifs <;> simp
    · intro a; split_ifs <;> simp
  · simp
  · simp

theorem create_download_directory_rec_returns (mode : Nat) (foe : Int) :
    ∀ (fuel : Nat) (fs : FS) (path : Option (List Nat)) (log : List (List Nat)),
      (path.getD []).length < fuel →
      create_download_directory_rec fuel fs path mode foe log ≠ Outcome.diverged := by
  intro fuel
  induction fuel with
  | zero => intro fs path log h; omega
  | succ n ih =>
    intro fs path log h
    cases path with
    | none => simp [create_download_directory_rec]
    | some p =>
      unfold create_download_directory_rec
      apply bind_ne_diverged
      · cases hs : strrchr p SLASH with
        | none => simp
        | some j =>
          obtain ⟨q, r, rfl, hq, _⟩ := strrchr_some SLASH p j hs
          simp only
          apply ih
          simp only [Option.getD_some, List.length_take, List.length_append,
            List.length_cons] at h ⊢
          omega
      · intro a
        split_ifs
        · simp
        · exact visit_returns a p foe

/-- The provisioner always comes back: it returns or ends the process. -/
theorem create_download_directory_returns (fs : FS) (path : Option (List Nat)) (mode : Nat)
    (foe : Int) : create_download_directory fs path mode foe ≠ Outcome.diverged :=
  create_download_directory_rec_returns mode foe _ fs path [] (Nat.lt_succ_self _)

/-- The receiver always comes back: it returns, ends the process, or runs into a
memory-unsafe operation. -/
theorem write_file_returns (le : Bool) (stack : List Nat) (heap : Nat → Nat)
    (clientIPAdd downloads_path : List Nat) (sock : Socket) (fs : FS) :
    write_file le stack heap clientIPAdd downloads_path sock fs ≠ Outcome.diverged := by
  unfold write_file
  apply bind_ne_diverged
  · unfold strcpy; split_ifs <;> simp
  · intro d
    apply bind_ne_diverged
    · unfold write_file_header
      apply bind_ne_diverged _ _ (read_complete_buffer_returns _ _ _)
      intro r1
      apply bind_ne_diverged _ _ (read_complete_buffer_returns _ _ _)
      intro r2
      apply bind_ne_diverged _ _ (read_complete_buffer_returns _ _ _)
      intro r3
      simp
    · intro h
      apply bind_ne_diverged
      · unfold write_file_open
        apply bind_ne_diverged
        · unfold strcat; split_ifs <;> simp
        · intro d1
          apply bind_ne_diverged
          · unfold strcat; split_ifs <;> simp
          · intro d2
            apply bind_ne_diverged _ _ (create_download_directory_returns _ _ _ _)
            intro p
            apply bind_ne_diverged
            · unfold error_check fatal_errno; split_ifs <;> simp
            · intro _
              apply bind_ne_diverged
              · unfold strcat; split_ifs <;> simp
              · intro d3; simp
      · intro o
        apply bind_ne_diverged
        · unfold write_file_body
          split_ifs
          · simp
          · exact write_complete_buffer_returns _ _ _ _
        · intro b; simp

end TcpPush
